import Mathlib

/-!
Verification development for the payman payout engine.

The Go sources are embedded shallowly:
* `signing.go` (package gotezos): `CreateBatchPayment`, `CreateWallet`,
  `ImportWallet`, `ImportEncryptedWallet`, `signOperationBytes`,
  `generatePublicHash`, `forgeOperationBytes`.
* `internal/cmd/serv.go` (package cmd): the `serv` scheduler loop.

External collaborators (libsodium, the pbkdf2 and base58check libraries and
the remote Tezos node) are modelled as function-valued parameters gathered in
`Primitives` / `BatchEnv`; the embedding mirrors the Go control flow exactly
and, for the batch loop and the scheduler, additionally records the observable
calls (forge / sign / pre-apply / store, payout construction and enqueue) so
that statements about calls never being attempted can be made.

Go byte strings are modelled as `List Nat` (one entry per byte) and Go
strings as Lean `String` (the inputs of interest are ASCII, where Go byte
indexing and Lean character indexing coincide). Go `float64` amounts are
modelled as `ℚ`.
-/

namespace Payman

/-- Key pair as stored by sodium's `SignKP`: raw public and secret key bytes. -/
structure SignKP where
  PublicKey : List Nat
  SecretKey : List Nat
deriving DecidableEq

/-- The `Wallet` struct of package gotezos.  Zero values mirror Go's. -/
structure Wallet where
  Address : String := ""
  Mnemonic : String := ""
  Seed : List Nat := []
  Sk : String := ""
  Pk : String := ""
  Kp : SignKP := ⟨[], []⟩
deriving DecidableEq

/-- The `Payment` struct: destination address and (float64) amount. -/
structure Payment where
  Address : String
  Amount : ℚ
deriving DecidableEq

/-- The `TransOp` struct built by `forgeOperationBytes`; all fields are
strings, exactly as in the Go source. -/
structure TransOp where
  Kind : String
  Source : String
  Fee : String
  GasLimit : String
  StorageLimit : String
  Amount : String
  Destination : String
  Counter : String
deriving DecidableEq

/-- The `Conts` struct: operation contents plus branch hash. -/
structure Conts where
  Contents : List TransOp
  Branch : String
deriving DecidableEq

/-- The part of the chain-head block `CreateBatchPayment` uses: its hash. -/
structure Block where
  Hash : String
deriving DecidableEq

/-- Result of a Go function returning `(α, error)`, with a separate
constructor for a runtime panic (e.g. out-of-range string slicing). -/
inductive GoResult (α : Type) where
  | ok (a : α)
  | err (msg : String)
  | panicked (msg : String)
deriving DecidableEq

/-- External cryptographic and encoding collaborators (libsodium, pbkdf2,
base58check).  They are parameters of the embedding: the repository calls
them but does not define them. -/
structure Primitives where
  /-- sodium generic (Blake2b, non-keyed) hash, 32-byte output. -/
  genericHash32 : List Nat → List Nat
  /-- sodium generic (Blake2b, non-keyed) hash, 20-byte output. -/
  genericHash20 : List Nat → List Nat
  /-- sodium detached signature: message bytes, secret-key bytes ↦ signature bytes. -/
  signDetached : List Nat → List Nat → List Nat
  /-- sodium `SeedSignKP`: derive a key pair from a signing seed. -/
  seedSignKP : List Nat → SignKP
  /-- sodium `SignSecretKey.Seed()`: extract the signing seed from secret-key bytes. -/
  skSeed : List Nat → List Nat
  /-- pbkdf2.Key (SHA-512): password, salt, iterations, key length ↦ key bytes. -/
  pbkdf2Key : List Nat → List Nat → Nat → Nat → List Nat
  /-- sodium `SecretBoxOpen`: box, nonce, key ↦ plaintext or error. -/
  secretBoxOpen : List Nat → List Nat → List Nat → Except String (List Nat)
  /-- base58check.Decode of the external library (checksum-validating). -/
  base58DecodeRaw : String → Except String (List Nat)
  /-- Modelled from the spec: the repository helper `b58cdecode` (not under
  src/) — base58-with-checksum decode that strips exactly the expected
  version tag, yielding the raw payload bytes.  Its alphabet arithmetic is
  abstracted as a parameter. -/
  b58cdecode : String → List Nat → List Nat

/-- Render a byte list injectively as text. -/
def natListStr (l : List Nat) : String :=
  String.intercalate "-" (l.map toString)

/-- Modelled from the spec: the repository helper `b58cencode` (not under
src/) — prepends a fixed multi-byte version tag to the payload and encodes
the whole with base58-with-checksum.  The base58 alphabet and checksum are
abstracted into an injective textual rendering of tag and payload. -/
def b58cencode (payload : List Nat) (tag : List Nat) : String :=
  natListStr tag ++ ":" ++ natListStr payload

/-- Modelled from the spec: secret-key version tag (`edsk`, full key). -/
def edsk : List Nat := [43, 246, 78, 7]

/-- Modelled from the spec: seed version tag (`edsk`, 54-character form). -/
def edsk2 : List Nat := [13, 15, 58, 7]

/-- Modelled from the spec: public-key version tag (`edpk`). -/
def edpk : List Nat := [13, 15, 37, 217]

/-- Modelled from the spec: encrypted-secret version tag (`edesk`), 5 bytes. -/
def edesk : List Nat := [7, 90, 60, 179, 41]

/-- Modelled from the spec: address version tag (`tz1`). -/
def tz1 : List Nat := [6, 161, 159]

/-- Signature version tag; literal from `signOperationBytes` in the source. -/
def edsigByte : List Nat := [9, 245, 205, 134, 18]

/-- Watermark byte for generic operations; literal from `signOperationBytes`. -/
def watermark : List Nat := [3]

/-- Go `[]byte(s)` for the ASCII strings of interest: one byte per character. -/
def strBytes (s : String) : List Nat :=
  s.data.map Char.toNat

/-- Value of one hexadecimal digit, as in Go's `encoding/hex`. -/
def hexDigitVal (c : Char) : Option Nat :=
  if '0' ≤ c ∧ c ≤ '9' then some (c.toNat - 48)
  else if 'a' ≤ c ∧ c ≤ 'f' then some (c.toNat - 87)
  else if 'A' ≤ c ∧ c ≤ 'F' then some (c.toNat - 55)
  else none

/-- Hex-decode a character list two digits at a time; `none` on odd length or
a non-hex digit, as in Go's `hex.DecodeString`. -/
def hexDecodeList : List Char → Option (List Nat)
  | [] => some []
  | [_] => none
  | c1 :: c2 :: rest =>
    match hexDigitVal c1, hexDigitVal c2, hexDecodeList rest with
    | some h, some l, some bs => some ((h * 16 + l) :: bs)
    | _, _, _ => none

/-- Go `hex.DecodeString`. -/
def hexDecode (s : String) : Option (List Nat) :=
  hexDecodeList s.data

/-- One lower-case hex digit. -/
def hexDigitChar (n : Nat) : Char :=
  if n < 10 then Char.ofNat (48 + n) else Char.ofNat (87 + n)

/-- Go `hex.EncodeToString` (bytes assumed < 256). -/
def hexEncode (bytes : List Nat) : String :=
  String.mk (bytes.flatMap fun b => [hexDigitChar (b / 16 % 16), hexDigitChar (b % 16)])

/-- Modelled from the spec: the repository helper `decodeSignature` (not
under src/) — base58check-decodes the encoded signature (ignoring a decode
error, which yields empty bytes) and hex-encodes the result. -/
def decodeSignature (prim : Primitives) (sig : String) : String :=
  match prim.base58DecodeRaw sig with
  | .error _ => hexEncode []
  | .ok decBytes => hexEncode decBytes

/-- `generatePublicHash` from the source: 20-byte generic hash of the raw
public key, base58check-encoded under the address tag.  The source checks
that the hash consumed exactly 32 bytes of public key (`i != 32`); the
modelled hash is total, so the check reduces to the length test. -/
def generatePublicHash (prim : Primitives) (kp : SignKP) : Except String String :=
  if kp.PublicKey.length ≠ 32 then
    .error "Unable to write public key to generic hash"
  else
    .ok (b58cencode (prim.genericHash20 kp.PublicKey) tz1)

/-- `signOperationBytes` from the source: hex-decode, prepend the watermark
byte, 32-byte generic hash, detached signature, base58check-encode under the
signature tag.  The source's defensive hash-write length check cannot fail
for the modelled (total) hash. -/
def signOperationBytes (prim : Primitives) (operationBytes : String) (wallet : Wallet) :
    Except String String :=
  match hexDecode operationBytes with
  | none => .error "Unable to sign operation bytes: encoding error"
  | some raw =>
    let opBytes := watermark ++ raw
    let finalHash := prim.genericHash32 opBytes
    let sig := prim.signDetached finalHash wallet.Kp.SecretKey
    .ok (b58cencode sig edsigByte)

/-- `CreateWallet` from the source: bip39-style pbkdf2 seed (2048 iterations,
salt `"mnemonic" ++ password`), key pair from the seed, address from the
hashed public key. -/
def CreateWallet (prim : Primitives) (mnemonic password : String) : Except String Wallet :=
  let seed := prim.pbkdf2Key (strBytes mnemonic) (strBytes ("mnemonic" ++ password)) 2048 64
  let signSeed := prim.skSeed seed
  let signKP := prim.seedSignKP signSeed
  match generatePublicHash prim signKP with
  | .error e => .error ("CreateWallet Error: " ++ e)
  | .ok generatedAddress =>
    .ok { Address := generatedAddress
          Mnemonic := mnemonic
          Seed := seed
          Kp := signKP
          Sk := b58cencode signKP.SecretKey edsk
          Pk := b58cencode signKP.PublicKey edpk }

/-- Common tail of `ImportWallet` (source lines 149-169): attach the key
pair, recompute the address and the public key and reject on mismatch. -/
def importFinish (prim : Primitives) (address public : String) (signKP : SignKP)
    (sk : String) : GoResult Wallet :=
  match generatePublicHash prim signKP with
  | .error e => .err ("Import Wallet Error: " ++ e)
  | .ok generatedAddress =>
    if generatedAddress ≠ address then
      .err "import Wallet Error: Reconstructed address and provided address do not match"
    else
      let generatedPublicKey := b58cencode signKP.PublicKey edpk
      if generatedPublicKey ≠ public then
        .err "import Wallet Error: Reconstructed Pkh and provided Pkh do not match"
      else
        .ok { Address := generatedAddress
              Mnemonic := ""
              Seed := []
              Sk := sk
              Pk := generatedPublicKey
              Kp := signKP }

/-- `ImportWallet` from the source.  `secret[:4]` is evaluated before any
length test, so a secret shorter than 4 characters panics.  For the
98-character form the source stores `[]byte(secret)` — the ASCII bytes of
the encoded string — as the raw secret key. -/
def ImportWallet (prim : Primitives) (address public secret : String) : GoResult Wallet :=
  if secret.length < 4 then
    .panicked "runtime error: slice bounds out of range"
  else if secret.take 4 ≠ "edsk" ∨ (secret.length ≠ 98 ∧ secret.length ≠ 54) then
    .err "import Wallet Error: The provided secret does not conform to known patterns"
  else if secret.length = 98 then
    let decodedSecretKey := prim.b58cdecode secret edsk
    let publicKey := decodedSecretKey.drop 32
    importFinish prim address public ⟨publicKey, strBytes secret⟩ secret
  else if secret.length = 54 then
    let decodedSeed := prim.b58cdecode secret edsk2
    let signKP := prim.seedSignKP decodedSeed
    importFinish prim address public signKP (b58cencode signKP.SecretKey edsk)
  else
    .err "import Wallet Error: Secret key is not the correct length"

/-- `ImportEncryptedWallet` from the source.  `encKey[:5]` is evaluated
before any length test, so an input shorter than 5 characters panics.  The
decoded payload is split into an 8-byte salt and the encrypted remainder,
the symmetric key is pbkdf2(password, salt, 32768 iterations, 32 bytes) and
the box is opened under the fixed all-zero 24-byte nonce. -/
def ImportEncryptedWallet (prim : Primitives) (pw encKey : String) : GoResult Wallet :=
  if encKey.length < 5 then
    .panicked "runtime error: slice bounds out of range"
  else if encKey.take 5 ≠ "edesk" ∨ encKey.length ≠ 88 then
    .err "importEncryptedWallet: Encrypted secret key does not conform to known patterns"
  else
    match prim.base58DecodeRaw encKey with
    | .error e => .err e
    | .ok b58c =>
      let esb := b58c.drop edesk.length
      let salt := esb.take 8
      let esm := esb.drop 8
      let passWd := strBytes pw
      let key := prim.pbkdf2Key passWd salt 32768 32
      let emptyNonceBytes := List.replicate 24 0
      match prim.secretBoxOpen esm emptyNonceBytes key with
      | .error _ => .err "Incorrect password for encrypted key"
      | .ok unencSecret =>
        let signKP := prim.seedSignKP unencSecret
        match generatePublicHash prim signKP with
        | .error e => .err ("ImportEncryptedWallet: " ++ e)
        | .ok generatedAddress =>
          .ok { Address := generatedAddress
                Mnemonic := ""
                Seed := []
                Sk := b58cencode signKP.SecretKey edsk
                Pk := b58cencode signKP.PublicKey edpk
                Kp := signKP }

/-- Modelled from the spec: the per-batch size bound fixed by configuration
(the batch splitter is repository code not under src/). -/
def batchSize : Nat := 125

/-- Structural worker for `splitPaymentIntoBatches`; the fuel is an upper
bound on the number of chunks and keeps the recursion structural (and hence
kernel-reducible). -/
def splitGo : Nat → List Payment → List (List Payment)
  | 0, _ => []
  | _ + 1, [] => []
  | fuel + 1, r => r.take batchSize :: splitGo fuel (r.drop batchSize)

/-- Modelled from the spec: `splitPaymentIntoBatches` (repository code not
under src/) partitions the payment list into ordered batches of at most
`batchSize` payments, preserving input order. -/
def splitPaymentIntoBatches (rewards : List Payment) : List (List Payment) :=
  splitGo rewards.length rewards

/-- The contents-building loop of `forgeOperationBytes` (source lines
290-307): one `TransOp` per payment with positive amount, threading the
counter; returns the built operations and the counter after the batch. -/
def buildOps (source : String) (paymentFee gaslimit : Int) :
    Nat → List Payment → List TransOp × Nat
  | counter, [] => ([], counter)
  | counter, p :: rest =>
    if 0 < p.Amount then
      ({ Kind := "transaction"
         Source := source
         Fee := toString paymentFee
         GasLimit := toString gaslimit
         StorageLimit := "0"
         Amount := toString (round p.Amount)
         Destination := p.Address
         Counter := toString counter } :: (buildOps source paymentFee gaslimit (counter + 1) rest).1,
       (buildOps source paymentFee gaslimit (counter + 1) rest).2)
    else
      buildOps source paymentFee gaslimit counter rest

/-- The node interface and external primitives used by `CreateBatchPayment`.
`forgeRPC` merges the POST to the forge endpoint with the JSON decode of its
response (both external to the engine). -/
structure BatchEnv where
  prim : Primitives
  getChainHead : Except String Block
  getAddressCounter : String → Except String Nat
  forgeRPC : Conts → Except String String
  preApplyOperations : Conts → String → Block → Except String Unit

/-- `forgeOperationBytes` from the source: build the contents for the batch,
ask the node to forge them, and return forged bytes, contents, the updated
counter and an optional error (the source returns all four regardless). -/
def forgeOperationBytes (env : BatchEnv) (branchHash : String) (counter : Nat)
    (wallet : Wallet) (batch : List Payment) (paymentFee gaslimit : Int) :
    String × Conts × Nat × Option String :=
  let built := buildOps wallet.Address paymentFee gaslimit counter batch
  let contents : Conts := { Contents := built.1, Branch := branchHash }
  match env.forgeRPC contents with
  | .error e => ("", contents, built.2, some ("POST-Forge Operation Error: " ++ e))
  | .ok opBytes => (opBytes, contents, built.2, none)

/-- Observable calls made by the `CreateBatchPayment` loop, tagged with the
0-indexed batch number: a forge request (with the contents sent), a signing
attempt, a pre-apply request (with its outcome) and the store of a finished
signed operation into the result slice. -/
inductive BatchEv where
  | forged (k : Nat) (conts : Conts)
  | signed (k : Nat)
  | preApplied (k : Nat) (ok : Bool)
  | stored (k : Nat) (op : String)
deriving DecidableEq

/-- The batch loop of `CreateBatchPayment` (source lines 39-70).  `sigs` is
the pre-allocated result slice (`make([]string, len(batches))`), updated in
place at the absolute batch index `k`.  Mirrors the Go control flow: forge,
adopt the new counter, sign, strip the signature tag, pre-apply (returning a
wrapped error on rejection without storing), then store the full operation
and continue.  The third component is the list of observable calls the loop
makes from this point on, in order. -/
def cbLoop (env : BatchEnv) (wallet : Wallet) (paymentFee gaslimit : Int) (blockHead : Block) :
    List (List Payment) → Nat → Nat → List String →
    List String × Option String × List BatchEv
  | [], _, _, sigs => (sigs, none, [])
  | batch :: rest, k, counter, sigs =>
    let fr := forgeOperationBytes env blockHead.Hash counter wallet batch paymentFee gaslimit
    match fr.2.2.2 with
    | some e => (sigs, some e, [BatchEv.forged k fr.2.1])
    | none =>
      match signOperationBytes env.prim fr.1 wallet with
      | .error e => (sigs, some e, [BatchEv.forged k fr.2.1, BatchEv.signed k])
      | .ok edsig =>
        let fullOperation := fr.1 ++ (decodeSignature env.prim edsig).drop 10
        match env.preApplyOperations fr.2.1 edsig blockHead with
        | .error e =>
          (sigs, some ("CreateBatchPayment failed to Pre-Apply: " ++ e),
            [BatchEv.forged k fr.2.1, BatchEv.signed k, BatchEv.preApplied k false])
        | .ok _ =>
          let r := cbLoop env wallet paymentFee gaslimit blockHead rest (k + 1) fr.2.2.1
            (sigs.set k fullOperation)
          (r.1, r.2.1,
            BatchEv.forged k fr.2.1 :: BatchEv.signed k :: BatchEv.preApplied k true ::
              BatchEv.stored k fullOperation :: r.2.2)

/-- `CreateBatchPayment` from the source: fetch the chain head and the
address counter, increment the counter, split the payments into batches,
pre-allocate the result slice (one empty-string slot per batch) and run the
batch loop.  Returns the slice, the optional error and the call trace. -/
def CreateBatchPayment (env : BatchEnv) (payments : List Payment) (wallet : Wallet)
    (paymentFee gaslimit : Int) : List String × Option String × List BatchEv :=
  match env.getChainHead with
  | .error e => ([], some e, [])
  | .ok blockHead =>
    match env.getAddressCounter wallet.Address with
    | .error e => ([], some e, [])
    | .ok counter =>
      let batches := splitPaymentIntoBatches payments
      let operationSignatures := List.replicate batches.length ""
      cbLoop env wallet paymentFee gaslimit blockHead batches 0 (counter + 1)
        operationSignatures

/-- All transaction operations sent to the forge endpoint, in call order. -/
def forgedOps (tr : List BatchEv) : List TransOp :=
  (tr.filterMap fun e =>
    match e with
    | BatchEv.forged _ conts => some conts.Contents
    | _ => none).flatten

/-- The operations of a list of batches with the counter threaded through,
exactly as the `CreateBatchPayment` loop forges them. -/
def batchChainOps (source : String) (paymentFee gaslimit : Int) :
    Nat → List (List Payment) → List TransOp
  | _, [] => []
  | counter, b :: rest =>
    let built := buildOps source paymentFee gaslimit counter b
    built.1 ++ batchChainOps source paymentFee gaslimit built.2 rest

/-- A payout job as constructed by `payout.New` for one cycle (the payout
package is repository code not under src/; per the spec a Payout is a job
for one cycle number). -/
structure Payout where
  cycle : Nat
deriving DecidableEq

/-- Scheduler state of `server.start`: the recorded current cycle, the jobs
enqueued on the payout queue in order, the cycles for which a payout was
constructed (`payout.New` calls, instrumentation) and the number of
head-query failures logged. -/
structure SState where
  currentCycle : Nat
  enqueued : List Payout
  constructed : List Nat
  headErrors : Nat
deriving DecidableEq

/-- One tick of the `server.start` loop (source lines 78-94).  A failed head
query is logged and leaves the zero-value block, whose cycle is 0; if the
observed cycle exceeds the recorded one, a payout for the recorded cycle is
constructed (a construction failure is `log.Fatal`: the second component
becomes `false` and the process dies) and enqueued, then the recorded cycle
is updated.  `pn` models `payout.New` applied to the recorded cycle. -/
def servTick (pn : Nat → Option Payout) (obs : Option Nat) (s : SState) : SState × Bool :=
  let s1 : SState :=
    match obs with
    | none => { s with headErrors := s.headErrors + 1 }
    | some _ => s
  let cyc : Nat :=
    match obs with
    | none => 0
    | some c => c
  if s1.currentCycle < cyc then
    match pn s1.currentCycle with
    | none => ({ s1 with constructed := s1.constructed ++ [s1.currentCycle] }, false)
    | some p =>
      ({ s1 with
          constructed := s1.constructed ++ [s1.currentCycle]
          enqueued := s1.enqueued ++ [p]
          currentCycle := cyc }, true)
  else
    (s1, true)

/-- Run the scheduler loop over a finite list of tick observations.  The
boolean records whether the process is still alive (`log.Fatal` stops it). -/
def servRun (pn : Nat → Option Payout) : List (Option Nat) → SState → SState × Bool
  | [], s => (s, true)
  | obs :: rest, s =>
    match servTick pn obs s with
    | (s1, false) => (s1, false)
    | (s1, true) => servRun pn rest s1

/-- `server.start` from the source: the head is queried once before the
loop; a failure is logged (non-fatally) but the zero-value block is still
used, so the recorded cycle starts at the observed cycle or at 0 after a
failure.  Then the tick loop runs. -/
def servStart (pn : Nat → Option Payout) (initObs : Option Nat)
    (ticks : List (Option Nat)) : SState × Bool :=
  let initErr : Nat :=
    match initObs with
    | none => 1
    | some _ => 0
  let s0 : SState :=
    { currentCycle :=
        match initObs with
        | none => 0
        | some c => c
      enqueued := []
      constructed := []
      headErrors := initErr }
  servRun pn ticks s0

/-! Concrete instances used by witnesses and counterexamples. -/

/-- Trivial but well-typed external primitives for concrete runs: the hash
is the identity, the 20-byte hash is a constant, signing concatenates the
message and the key, every seed yields the fixed key pair
`(replicate 32 0, replicate 64 1)` and base58check decoding yields
`replicate 64 0`. -/
def trivPrim : Primitives :=
  { genericHash32 := fun l => l
    genericHash20 := fun _ => [7]
    signDetached := fun m k => m ++ k
    seedSignKP := fun _ => ⟨List.replicate 32 0, List.replicate 64 1⟩
    skSeed := fun l => l.take 32
    pbkdf2Key := fun _ _ _ n => List.replicate n 2
    secretBoxOpen := fun _ _ _ => .ok [5]
    base58DecodeRaw := fun _ => .ok []
    b58cdecode := fun _ _ => List.replicate 64 0 }

/-- A wallet with only the source address set, for batch runs. -/
def trivWallet : Wallet :=
  { Address := "src", Mnemonic := "", Seed := [], Sk := "", Pk := "", Kp := ⟨[], []⟩ }

/-- A node environment in which every call succeeds. -/
def allOkEnv : BatchEnv :=
  { prim := trivPrim
    getChainHead := .ok ⟨"BH"⟩
    getAddressCounter := fun _ => .ok 5
    forgeRPC := fun _ => .ok "ab"
    preApplyOperations := fun _ _ _ => .ok () }

/-- Three payments, the middle one with amount 0. -/
def samplePayments : List Payment := [⟨"d1", 2⟩, ⟨"d2", 0⟩, ⟨"d3", 1⟩]

/-- A node environment whose pre-apply step rejects any batch containing a
transfer to destination `"bad"`. -/
def rejectEnv : BatchEnv :=
  { prim := trivPrim
    getChainHead := .ok ⟨"BH"⟩
    getAddressCounter := fun _ => .ok 5
    forgeRPC := fun _ => .ok "ab"
    preApplyOperations := fun conts _ _ =>
      if conts.Contents.any (fun o => o.Destination = "bad") then .error "rejected" else .ok () }

/-- 126 payments: they split into two batches, and only the second batch
contains the rejected destination. -/
def rejectPayments : List Payment := List.replicate 125 ⟨"d1", 1⟩ ++ [⟨"bad", 1⟩]

/-- A 54-character seed-form secret. -/
def seed54 : String := "edsk" ++ String.mk (List.replicate 50 'a')

/-- A 98-character full-secret-key-form secret. -/
def secret98 : String := "edsk" ++ String.mk (List.replicate 94 'a')

/-- An 88-character encrypted secret. -/
def encKey88 : String := "edesk" ++ String.mk (List.replicate 83 'a')

/-- The address `trivPrim` reconstructs for any 32-byte public key. -/
def addrHash : String := b58cencode [7] tz1

/-- The encoded form of the public key `List.replicate 32 0`. -/
def pubEnc : String := b58cencode (List.replicate 32 0) edpk

/-- The wallet `trivPrim` reconstructs from any seed. -/
def walletT : Wallet :=
  { Address := addrHash
    Mnemonic := ""
    Seed := []
    Sk := b58cencode (List.replicate 64 1) edsk
    Pk := pubEnc
    Kp := ⟨List.replicate 32 0, List.replicate 64 1⟩ }

/-- The wallet `ImportWallet` builds from `secret98` under `trivPrim`: the
raw secret-key bytes are the ASCII bytes of the encoded string itself. -/
def wallet98 : Wallet :=
  { Address := addrHash
    Mnemonic := ""
    Seed := []
    Sk := secret98
    Pk := pubEnc
    Kp := ⟨List.replicate 32 0, strBytes secret98⟩ }

/-- A payout constructor that always succeeds, tagging the job with its cycle. -/
def pnAll : Nat → Option Payout := fun c => some ⟨c⟩

/-! Helper lemmas. -/

theorem strBytes_length (s : String) : (strBytes s).length = s.length := by
  simp only [strBytes, List.length_map]
  rfl

theorem getD_replicate (n i : Nat) (a : α) : (List.replicate n a).getD i a = a := by
  simp only [List.getD_eq_getElem?_getD, List.getElem?_replicate]
  split <;> rfl

theorem getD_set_ne (l : List α) (i j : Nat) (a d : α) (h : i ≠ j) :
    (l.set i a).getD j d = l.getD j d := by
  simp [List.getD_eq_getElem?_getD, List.getElem?_set_ne h]

theorem getD_set_self (l : List α) (i : Nat) (a d : α) (h : i < l.length) :
    (l.set i a).getD i d = a := by
  simp [List.getD_eq_getElem?_getD, List.getElem?_set_self h]

theorem splitGo_flatten : ∀ (fuel : Nat) (l : List Payment),
    l.length ≤ fuel → (splitGo fuel l).flatten = l := by
  intro fuel
  induction fuel with
  | zero =>
    intro l hl
    have : l = [] := List.eq_nil_of_length_eq_zero (Nat.le_zero.mp hl)
    subst this
    rfl
  | succ fuel ih =>
    intro l hl
    match l with
    | [] => rfl
    | p :: rest =>
      show ((p :: rest).take batchSize :: splitGo fuel ((p :: rest).drop batchSize)).flatten
          = p :: rest
      rw [List.flatten_cons, ih ((p :: rest).drop batchSize)
        (by
          have hb : 1 ≤ batchSize := by decide
          simp only [List.length_drop, List.length_cons]
          simp only [List.length_cons] at hl
          omega), List.take_append_drop]

theorem splitPaymentIntoBatches_flatten (l : List Payment) :
    (splitPaymentIntoBatches l).flatten = l :=
  splitGo_flatten l.length l (Nat.le_refl _)

theorem buildOps_spec (source : String) (paymentFee gaslimit : Int) :
    ∀ (l : List Payment) (c : Nat),
    (buildOps source paymentFee gaslimit c l).2 =
      c + (l.filter fun p => 0 < p.Amount).length ∧
    (buildOps source paymentFee gaslimit c l).1.map TransOp.Counter =
      (List.range' c (l.filter fun p => 0 < p.Amount).length).map toString ∧
    (buildOps source paymentFee gaslimit c l).1.map
        (fun o => (o.Kind, o.Source, o.Fee, o.GasLimit, o.StorageLimit, o.Amount, o.Destination)) =
      (l.filter fun p => 0 < p.Amount).map
        (fun p => ("transaction", source, toString paymentFee, toString gaslimit, "0",
          toString (round p.Amount), p.Address)) := by
  intro l
  induction l with
  | nil => intro c; simp [buildOps]
  | cons p rest ih =>
    intro c
    by_cases hp : 0 < p.Amount
    · have h1 := (ih (c + 1)).1
      have h2 := (ih (c + 1)).2.1
      have h3 := (ih (c + 1)).2.2
      have hfilter : (p :: rest).filter (fun q => decide (0 < q.Amount)) =
          p :: rest.filter (fun q => decide (0 < q.Amount)) := by
        simp [List.filter_cons, hp]
      refine ⟨?_, ?_, ?_⟩
      · simp only [buildOps, if_pos hp, hfilter, List.length_cons, h1]
        omega
      · simp only [buildOps, if_pos hp, hfilter, List.length_cons, List.map_cons,
          List.range'_succ, h2]
      · simp only [buildOps, if_pos hp, hfilter, List.map_cons, h3]
    · have hfilter : (p :: rest).filter (fun q => decide (0 < q.Amount)) =
          rest.filter (fun q => decide (0 < q.Amount)) := by
        simp [List.filter_cons, hp]
      refine ⟨?_, ?_, ?_⟩
      · simp only [buildOps, if_neg hp, hfilter, (ih c).1]
      · simp only [buildOps, if_neg hp, hfilter, (ih c).2.1]
      · simp only [buildOps, if_neg hp, hfilter, (ih c).2.2]

theorem buildOps_append (source : String) (paymentFee gaslimit : Int) :
    ∀ (xs ys : List Payment) (c : Nat),
    buildOps source paymentFee gaslimit c (xs ++ ys) =
      ((buildOps source paymentFee gaslimit c xs).1 ++
        (buildOps source paymentFee gaslimit (buildOps source paymentFee gaslimit c xs).2 ys).1,
       (buildOps source paymentFee gaslimit (buildOps source paymentFee gaslimit c xs).2 ys).2) := by
  intro xs
  induction xs with
  | nil => intro ys c; simp [buildOps]
  | cons p rest ih =>
    intro ys c
    by_cases hp : 0 < p.Amount
    · simp [buildOps, if_pos hp, ih]
    · simp [buildOps, if_neg hp, ih]

theorem batchChainOps_eq (source : String) (paymentFee gaslimit : Int) :
    ∀ (bs : List (List Payment)) (c : Nat),
    batchChainOps source paymentFee gaslimit c bs =
      (buildOps source paymentFee gaslimit c bs.flatten).1 := by
  intro bs
  induction bs with
  | nil => intro c; simp [batchChainOps, buildOps]
  | cons b rest ih =>
    intro c
    simp [batchChainOps, ih, List.flatten_cons, buildOps_append]

theorem forgedOps_nil : forgedOps [] = [] := rfl

theorem forgedOps_append (a b : List BatchEv) :
    forgedOps (a ++ b) = forgedOps a ++ forgedOps b := by
  simp [forgedOps, List.filterMap_append]

theorem forgedOps_cons_forged (k : Nat) (conts : Conts) (tr : List BatchEv) :
    forgedOps (BatchEv.forged k conts :: tr) = conts.Contents ++ forgedOps tr := by
  simp [forgedOps, List.filterMap_cons]

theorem forgedOps_cons_signed (k : Nat) (tr : List BatchEv) :
    forgedOps (BatchEv.signed k :: tr) = forgedOps tr := by
  simp [forgedOps, List.filterMap_cons]

theorem forgedOps_cons_preApplied (k : Nat) (b : Bool) (tr : List BatchEv) :
    forgedOps (BatchEv.preApplied k b :: tr) = forgedOps tr := by
  simp [forgedOps, List.filterMap_cons]

theorem forgedOps_cons_stored (k : Nat) (op : String) (tr : List BatchEv) :
    forgedOps (BatchEv.stored k op :: tr) = forgedOps tr := by
  simp [forgedOps, List.filterMap_cons]

theorem cbLoop_ok_forged (env : BatchEnv) (w : Wallet) (f g : Int) (bh : Block) :
    ∀ (bs : List (List Payment)) (k c : Nat) (sigs : List String),
    (cbLoop env w f g bh bs k c sigs).2.1 = none →
    forgedOps (cbLoop env w f g bh bs k c sigs).2.2 = batchChainOps w.Address f g c bs := by
  intro bs
  induction bs with
  | nil => intro k c sigs _; simp [cbLoop, batchChainOps, forgedOps]
  | cons b rest ih =>
    intro k c sigs hok
    rcases hF : env.forgeRPC ⟨(buildOps w.Address f g c b).1, bh.Hash⟩ with e | opB
    · simp only [cbLoop, forgeOperationBytes, hF] at hok
      exact absurd hok (by simp)
    · rcases hS : signOperationBytes env.prim opB w with e | edsig
      · simp only [cbLoop, forgeOperationBytes, hF, hS] at hok
        exact absurd hok (by simp)
      · rcases hP : env.preApplyOperations ⟨(buildOps w.Address f g c b).1, bh.Hash⟩ edsig bh
            with e | u
        · simp only [cbLoop, forgeOperationBytes, hF, hS, hP] at hok
          exact absurd hok (by simp)
        · simp only [cbLoop, forgeOperationBytes, hF, hS, hP] at hok ⊢
          rw [forgedOps_cons_forged, forgedOps_cons_signed, forgedOps_cons_preApplied,
            forgedOps_cons_stored, ih _ _ _ hok]
          simp [batchChainOps]

theorem cbLoop_fail_spec (env : BatchEnv) (w : Wallet) (f g : Int) (bh : Block) :
    ∀ (bs : List (List Payment)) (k0 c : Nat) (sigs : List String) (kf : Nat),
    sigs.length = k0 + bs.length →
    BatchEv.preApplied kf false ∈ (cbLoop env w f g bh bs k0 c sigs).2.2 →
    k0 ≤ kf ∧
    (cbLoop env w f g bh bs k0 c sigs).2.1.isSome = true ∧
    (cbLoop env w f g bh bs k0 c sigs).1.length = sigs.length ∧
    (∀ j, kf ≤ j → (cbLoop env w f g bh bs k0 c sigs).1.getD j "" = sigs.getD j "") ∧
    (∀ j, j < k0 → (cbLoop env w f g bh bs k0 c sigs).1.getD j "" = sigs.getD j "") ∧
    (∀ j conts, BatchEv.forged j conts ∈ (cbLoop env w f g bh bs k0 c sigs).2.2 → j ≤ kf) ∧
    (∀ j, BatchEv.signed j ∈ (cbLoop env w f g bh bs k0 c sigs).2.2 → j ≤ kf) ∧
    (∀ j b, BatchEv.preApplied j b ∈ (cbLoop env w f g bh bs k0 c sigs).2.2 → j ≤ kf) ∧
    (∀ j op, BatchEv.stored j op ∈ (cbLoop env w f g bh bs k0 c sigs).2.2 → j < kf) ∧
    (∀ j, k0 ≤ j → j < kf →
      BatchEv.preApplied j true ∈ (cbLoop env w f g bh bs k0 c sigs).2.2 ∧
      ∃ op, BatchEv.stored j op ∈ (cbLoop env w f g bh bs k0 c sigs).2.2 ∧
        (cbLoop env w f g bh bs k0 c sigs).1.getD j "" = op) := by
  intro bs
  induction bs with
  | nil =>
    intro k0 c sigs kf _ hmem
    simp [cbLoop] at hmem
  | cons b rest ih =>
    intro k0 c sigs kf hlen hmem
    rcases hF : env.forgeRPC ⟨(buildOps w.Address f g c b).1, bh.Hash⟩ with e | opB
    · simp only [cbLoop, forgeOperationBytes, hF] at hmem
      simp at hmem
    · rcases hS : signOperationBytes env.prim opB w with e | edsig
      · simp only [cbLoop, forgeOperationBytes, hF, hS] at hmem
        simp at hmem
      · rcases hP : env.preApplyOperations ⟨(buildOps w.Address f g c b).1, bh.Hash⟩ edsig bh
            with e | u
        · have heq : cbLoop env w f g bh (b :: rest) k0 c sigs =
              (sigs, some ("CreateBatchPayment failed to Pre-Apply: " ++ e),
                [BatchEv.forged k0 ⟨(buildOps w.Address f g c b).1, bh.Hash⟩,
                  BatchEv.signed k0, BatchEv.preApplied k0 false]) := by
            simp only [cbLoop, forgeOperationBytes, hF, hS, hP]
          rw [heq] at hmem ⊢
          have hkf : kf = k0 := by
            simp only [List.mem_cons, List.not_mem_nil, or_false] at hmem
            rcases hmem with hj | hj | hj
            · exact absurd hj (by simp)
            · exact absurd hj (by simp)
            · exact (BatchEv.preApplied.inj hj).1
          subst hkf
          refine ⟨Nat.le_refl _, rfl, rfl, fun j _ => rfl, fun j _ => rfl, ?_, ?_, ?_, ?_, ?_⟩
          · intro j conts hj
            simp only [List.mem_cons, List.not_mem_nil, or_false] at hj
            rcases hj with hj | hj | hj
            · exact le_of_eq (BatchEv.forged.inj hj).1
            · exact absurd hj (by simp)
            · exact absurd hj (by simp)
          · intro j hj
            simp only [List.mem_cons, List.not_mem_nil, or_false] at hj
            rcases hj with hj | hj | hj
            · exact absurd hj (by simp)
            · exact le_of_eq (BatchEv.signed.inj hj)
            · exact absurd hj (by simp)
          · intro j bb hj
            simp only [List.mem_cons, List.not_mem_nil, or_false] at hj
            rcases hj with hj | hj | hj
            · exact absurd hj (by simp)
            · exact absurd hj (by simp)
            · exact le_of_eq (BatchEv.preApplied.inj hj).1
          · intro j op hj
            simp only [List.mem_cons, List.not_mem_nil, or_false] at hj
            rcases hj with hj | hj | hj
            · exact absurd hj (by simp)
            · exact absurd hj (by simp)
            · exact absurd hj (by simp)
          · intro j hj1 hj2
            omega
        · have heq : cbLoop env w f g bh (b :: rest) k0 c sigs =
              ((cbLoop env w f g bh rest (k0 + 1) (buildOps w.Address f g c b).2
                  (sigs.set k0 (opB ++ (decodeSignature env.prim edsig).drop 10))).1,
               (cbLoop env w f g bh rest (k0 + 1) (buildOps w.Address f g c b).2
                  (sigs.set k0 (opB ++ (decodeSignature env.prim edsig).drop 10))).2.1,
               BatchEv.forged k0 ⟨(buildOps w.Address f g c b).1, bh.Hash⟩ ::
                 BatchEv.signed k0 :: BatchEv.preApplied k0 true ::
                 BatchEv.stored k0 (opB ++ (decodeSignature env.prim edsig).drop 10) ::
                 (cbLoop env w f g bh rest (k0 + 1) (buildOps w.Address f g c b).2
                   (sigs.set k0 (opB ++ (decodeSignature env.prim edsig).drop 10))).2.2) := by
            simp only [cbLoop, forgeOperationBytes, hF, hS, hP]
          rw [heq] at hmem ⊢
          have hmem' : BatchEv.preApplied kf false ∈
              (cbLoop env w f g bh rest (k0 + 1) (buildOps w.Address f g c b).2
                (sigs.set k0 (opB ++ (decodeSignature env.prim edsig).drop 10))).2.2 := by
            simp only [List.mem_cons] at hmem
            rcases hmem with hj | hj | hj | hj | hj
            · exact absurd hj (by simp)
            · exact absurd hj (by simp)
            · exact absurd hj (by simp)
            · exact absurd hj (by simp)
            · exact hj
          have hlen' : (sigs.set k0 (opB ++ (decodeSignature env.prim edsig).drop 10)).length =
              (k0 + 1) + rest.length := by
            simp only [List.length_set, hlen, List.length_cons]
            omega
          obtain ⟨h1, h2, h3, h4, h5, h6, h7, h8, h9, h10⟩ :=
            ih (k0 + 1) (buildOps w.Address f g c b).2
              (sigs.set k0 (opB ++ (decodeSignature env.prim edsig).drop 10)) kf hlen' hmem'
          have hk0 : k0 < sigs.length := by
            simp only [hlen, List.length_cons]
            omega
          refine ⟨by omega, h2, ?_, ?_, ?_, ?_, ?_, ?_, ?_, ?_⟩
          · rw [h3, List.length_set]
          · intro j hj
            rw [h4 j hj, getD_set_ne _ _ _ _ _ (by omega)]
          · intro j hj
            rw [h5 j (by omega), getD_set_ne _ _ _ _ _ (by omega)]
          · intro j conts hj
            simp only [List.mem_cons] at hj
            rcases hj with hj | hj | hj | hj | hj
            · have := (BatchEv.forged.inj hj).1
              omega
            · exact absurd hj (by simp)
            · exact absurd hj (by simp)
            · exact absurd hj (by simp)
            · exact h6 j conts hj
          · intro j hj
            simp only [List.mem_cons] at hj
            rcases hj with hj | hj | hj | hj | hj
            · exact absurd hj (by simp)
            · have := BatchEv.signed.inj hj
              omega
            · exact absurd hj (by simp)
            · exact absurd hj (by simp)
            · exact h7 j hj
          · intro j bb hj
            simp only [List.mem_cons] at hj
            rcases hj with hj | hj | hj | hj | hj
            · exact absurd hj (by simp)
            · exact absurd hj (by simp)
            · have := (BatchEv.preApplied.inj hj).1
              omega
            · exact absurd hj (by simp)
            · exact h8 j bb hj
          · intro j op hj
            simp only [List.mem_cons] at hj
            rcases hj with hj | hj | hj | hj | hj
            · exact absurd hj (by simp)
            · exact absurd hj (by simp)
            · exact absurd hj (by simp)
            · have := (BatchEv.stored.inj hj).1
              omega
            · have := h9 j op hj
              omega
          · intro j hjk0 hjkf
            rcases Nat.lt_or_ge j (k0 + 1) with hcase | hcase
            · have hjeq : j = k0 := by omega
              subst hjeq
              refine ⟨by simp, opB ++ (decodeSignature env.prim edsig).drop 10, by simp, ?_⟩
              rw [h5 j (by omega), getD_set_self _ _ _ _ hk0]
            · obtain ⟨hmem1, op, hmem2, hval⟩ := h10 j hcase hjkf
              refine ⟨?_, op, ?_, hval⟩
              · simp only [List.mem_cons]
                exact Or.inr (Or.inr (Or.inr (Or.inr hmem1)))
              · simp only [List.mem_cons]
                exact Or.inr (Or.inr (Or.inr (Or.inr hmem2)))

theorem servTick_preserve (pn : Nat → Option Payout)
    (hpn : ∀ c p, pn c = some p → p.cycle = c) (m : Nat) (obs : Option Nat) (s : SState)
    (h : m ≤ s.currentCycle) :
    m ≤ (servTick pn obs s).1.currentCycle ∧
    (∀ q ∈ (servTick pn obs s).1.enqueued, q ∈ s.enqueued ∨ m ≤ q.cycle) ∧
    (∀ cc ∈ (servTick pn obs s).1.constructed, cc ∈ s.constructed ∨ m ≤ cc) := by
  unfold servTick
  cases obs with
  | none =>
    dsimp only
    rw [if_neg (by omega)]
    exact ⟨h, fun q hq => Or.inl hq, fun cc hcc => Or.inl hcc⟩
  | some c =>
    dsimp only
    by_cases hlt : s.currentCycle < c
    · rw [if_pos hlt]
      cases hpn' : pn s.currentCycle with
      | none =>
        dsimp only
        refine ⟨h, fun q hq => Or.inl hq, fun cc hcc => ?_⟩
        rcases List.mem_append.mp hcc with hcc | hcc
        · exact Or.inl hcc
        · have : cc = s.currentCycle := by simpa using hcc
          exact Or.inr (by omega)
      | some p =>
        dsimp only
        refine ⟨by omega, fun q hq => ?_, fun cc hcc => ?_⟩
        · rcases List.mem_append.mp hq with hq | hq
          · exact Or.inl hq
          · have : q = p := by simpa using hq
            subst this
            exact Or.inr (by rw [hpn _ _ hpn']; omega)
        · rcases List.mem_append.mp hcc with hcc | hcc
          · exact Or.inl hcc
          · have : cc = s.currentCycle := by simpa using hcc
            exact Or.inr (by omega)
    · rw [if_neg hlt]
      exact ⟨h, fun q hq => Or.inl hq, fun cc hcc => Or.inl hcc⟩

theorem servRun_preserve (pn : Nat → Option Payout)
    (hpn : ∀ c p, pn c = some p → p.cycle = c) (m : Nat) :
    ∀ (ticks : List (Option Nat)) (s : SState), m ≤ s.currentCycle →
    m ≤ (servRun pn ticks s).1.currentCycle ∧
    (∀ q ∈ (servRun pn ticks s).1.enqueued, q ∈ s.enqueued ∨ m ≤ q.cycle) ∧
    (∀ cc ∈ (servRun pn ticks s).1.constructed, cc ∈ s.constructed ∨ m ≤ cc) := by
  intro ticks
  induction ticks with
  | nil =>
    intro s h
    exact ⟨h, fun q hq => Or.inl hq, fun cc hcc => Or.inl hcc⟩
  | cons obs rest ih =>
    intro s h
    obtain ⟨t1, t2, t3⟩ := servTick_preserve pn hpn m obs s h
    cases hst : servTick pn obs s with
    | mk s1 alive =>
      rw [hst] at t1 t2 t3
      cases alive
      · have hrun : servRun pn (obs :: rest) s = (s1, false) := by
          simp [servRun, hst]
        rw [hrun]
        exact ⟨t1, t2, t3⟩
      · have hrun : servRun pn (obs :: rest) s = servRun pn rest s1 := by
          simp [servRun, hst]
        rw [hrun]
        obtain ⟨r1, r2, r3⟩ := ih s1 t1
        exact ⟨r1, fun q hq => (r2 q hq).elim (fun h' => t2 q h') Or.inr,
               fun cc hcc => (r3 cc hcc).elim (fun h' => t3 cc h') Or.inr⟩

theorem importFinish_ok (prim : Primitives) (a p : String) (kp : SignKP) (sk : String)
    (w : Wallet) (h : importFinish prim a p kp sk = .ok w) :
    generatePublicHash prim kp = .ok a ∧ b58cencode kp.PublicKey edpk = p ∧
    w = { Address := a, Mnemonic := "", Seed := [], Sk := sk, Pk := p, Kp := kp } := by
  unfold importFinish at h
  split at h
  next e hG => exact absurd h (by simp)
  next ga hG =>
    split at h
    next hga => exact absurd h (by simp)
    next hga =>
      dsimp only at h
      split at h
      next hpk => exact absurd h (by simp)
      next hpk =>
        push_neg at hga hpk
        rw [hga] at hG
        rw [hga, hpk] at h
        exact ⟨hG, hpk, (GoResult.ok.inj h).symm⟩

theorem pnAll_spec (c : Nat) (q : Payout) (h : pnAll c = some q) : q.cycle = c := by
  unfold pnAll at h
  injection h with h'
  rw [← h']

/-! Claim theorems. -/

/-- Claim C4 (confirmed): for every hex string of forged operation bytes,
`signOperationBytes` hex-decodes the input, prepends the single watermark
byte 3, hashes the watermarked bytes with the 32-byte generic hash, signs
that hash (detached) with the wallet's secret key, and base58check-encodes
the signature under the signature tag — the signature is never computed over
the forged bytes without the watermark. -/
theorem signOperationBytes_signs_watermarked_hash (prim : Primitives) (w : Wallet)
    (s : String) (raw : List Nat) (h : hexDecode s = some raw) :
    signOperationBytes prim s w =
      .ok (b58cencode (prim.signDetached (prim.genericHash32 (watermark ++ raw))
        w.Kp.SecretKey) edsigByte) := by
  simp [signOperationBytes, h]

/-- Witness for C4 at the concrete input `"03"`. -/
theorem signOperationBytes_signs_watermarked_hash_witness :
    hexDecode "03" = some [3] ∧
    signOperationBytes trivPrim "03" walletT =
      .ok (b58cencode (trivPrim.signDetached (trivPrim.genericHash32 (watermark ++ [3]))
        walletT.Kp.SecretKey) edsigByte) :=
  ⟨by decide, signOperationBytes_signs_watermarked_hash trivPrim walletT "03" [3] (by decide)⟩

/-- Claim C6 (confirmed): whenever `ImportWallet` returns a wallet (rather
than an error), the recomputed address and the recomputed public key equal
the caller-supplied ones; contrapositively, a mismatched secret/address or
secret/public-key pair is always rejected with an error. -/
theorem importWallet_rejects_mismatch (prim : Primitives) (a p s : String) (w : Wallet)
    (h : ImportWallet prim a p s = .ok w) :
    generatePublicHash prim w.Kp = .ok a ∧ b58cencode w.Kp.PublicKey edpk = p ∧
    w.Address = a ∧ w.Pk = p := by
  unfold ImportWallet at h
  split at h
  next => exact absurd h (by simp)
  next =>
    split at h
    next => exact absurd h (by simp)
    next =>
      split at h
      next =>
        dsimp only at h
        obtain ⟨h1, h2, h3⟩ := importFinish_ok _ _ _ _ _ _ h
        subst h3
        exact ⟨h1, h2, rfl, rfl⟩
      next =>
        split at h
        next =>
          dsimp only at h
          obtain ⟨h1, h2, h3⟩ := importFinish_ok _ _ _ _ _ _ h
          subst h3
          exact ⟨h1, h2, rfl, rfl⟩
        next => exact absurd h (by simp)

set_option maxRecDepth 100000 in
/-- Witness for C6: a successful 54-character import under `trivPrim`. -/
theorem importWallet_rejects_mismatch_witness :
    ImportWallet trivPrim addrHash pubEnc seed54 = .ok walletT ∧
    generatePublicHash trivPrim walletT.Kp = .ok addrHash ∧
    b58cencode walletT.Kp.PublicKey edpk = pubEnc ∧
    walletT.Address = addrHash ∧ walletT.Pk = pubEnc := by
  have h : ImportWallet trivPrim addrHash pubEnc seed54 = .ok walletT := by decide
  exact ⟨h, importWallet_rejects_mismatch trivPrim addrHash pubEnc seed54 walletT h⟩

/-- Claim C7 (confirmed): for a well-formed encrypted secret,
`ImportEncryptedWallet` splits the decoded payload (after the 5-byte tag)
into an 8-byte salt and the encrypted remainder, derives a 32-byte key via
pbkdf2 with 32768 iterations, opens the authenticated box under the fixed
all-zero 24-byte nonce, returns an incorrect-password error on
authentication failure (populating no wallet), and with the correct
password reconstructs key pair, secret key, public key and address from the
recovered seed. -/
theorem importEncryptedWallet_spec (prim : Primitives) (pw encKey : String)
    (b58c : List Nat) (h5 : encKey.take 5 = "edesk") (h88 : encKey.length = 88)
    (hdec : prim.base58DecodeRaw encKey = .ok b58c) :
    (∀ e, prim.secretBoxOpen ((b58c.drop 5).drop 8) (List.replicate 24 0)
        (prim.pbkdf2Key (strBytes pw) ((b58c.drop 5).take 8) 32768 32) = .error e →
      ImportEncryptedWallet prim pw encKey = .err "Incorrect password for encrypted key") ∧
    (∀ seed ga, prim.secretBoxOpen ((b58c.drop 5).drop 8) (List.replicate 24 0)
        (prim.pbkdf2Key (strBytes pw) ((b58c.drop 5).take 8) 32768 32) = .ok seed →
      generatePublicHash prim (prim.seedSignKP seed) = .ok ga →
      ImportEncryptedWallet prim pw encKey = .ok
        { Address := ga, Mnemonic := "", Seed := [],
          Sk := b58cencode (prim.seedSignKP seed).SecretKey edsk,
          Pk := b58cencode (prim.seedSignKP seed).PublicKey edpk,
          Kp := prim.seedSignKP seed }) := by
  have hlenEdesk : edesk.length = 5 := rfl
  constructor
  · intro e he
    unfold ImportEncryptedWallet
    rw [if_neg (by omega), if_neg (by simp [h5, h88]), hdec]
    dsimp only
    rw [hlenEdesk, he]
  · intro seed ga ho hga
    unfold ImportEncryptedWallet
    rw [if_neg (by omega), if_neg (by simp [h5, h88]), hdec]
    dsimp only
    rw [hlenEdesk, ho]
    dsimp only
    rw [hga]

/-- Witness for C7: a successful decryption under `trivPrim`. -/
theorem importEncryptedWallet_spec_witness :
    ImportEncryptedWallet trivPrim "pw" encKey88 = .ok walletT :=
  (importEncryptedWallet_spec trivPrim "pw" encKey88 [] (by decide) (by decide) rfl).2
    [5] addrHash rfl rfl

/-- Claim C8 (confirmed): for a 98-character secret, `ImportWallet` stores
the ASCII bytes of the encoded secret string itself as the raw secret key —
not the base58check-decoded 64 key bytes — so `signOperationBytes` on such a
wallet feeds different key material to the detached-signature primitive than
it does for the wallet `CreateWallet` builds, even though the returned `Sk`
string is the secret itself. -/
theorem importWallet_stores_ascii_secret (prim : Primitives) (a p secret : String)
    (w : Wallet) (hlen : secret.length = 98)
    (h : ImportWallet prim a p secret = .ok w)
    (hdec : (prim.b58cdecode secret edsk).length = 64) :
    w.Sk = secret ∧
    w.Kp.SecretKey = strBytes secret ∧
    w.Kp.SecretKey ≠ prim.b58cdecode secret edsk ∧
    (∀ ob raw, hexDecode ob = some raw →
      signOperationBytes prim ob w =
        .ok (b58cencode (prim.signDetached (prim.genericHash32 (watermark ++ raw))
          (strBytes secret)) edsigByte)) ∧
    (∀ mn pw w2, CreateWallet prim mn pw = .ok w2 → w2.Kp.SecretKey.length = 64 →
      w2.Kp.SecretKey ≠ w.Kp.SecretKey) := by
  have hsb : (strBytes secret).length = 98 := by rw [strBytes_length, hlen]
  unfold ImportWallet at h
  rw [if_neg (by omega)] at h
  split at h
  next => exact absurd h (by simp)
  next =>
    dsimp only at h
    obtain ⟨h1, h2, h3⟩ := importFinish_ok _ _ _ _ _ _ h
    subst h3
    refine ⟨rfl, rfl, ?_, ?_, ?_⟩
    · intro heq
      have hlens := congrArg List.length heq
      rw [hsb, hdec] at hlens
      exact absurd hlens (by decide)
    · intro ob raw hr
      simp [signOperationBytes, hr]
    · intro mn pw w2 _ hlen2 heq
      have hlens := congrArg List.length heq
      rw [hlen2, hsb] at hlens
      exact absurd hlens (by decide)

set_option maxRecDepth 1000000 in
/-- Witness for C8: a successful 98-character import under `trivPrim`. -/
theorem importWallet_stores_ascii_secret_witness :
    wallet98.Sk = secret98 ∧
    wallet98.Kp.SecretKey = strBytes secret98 ∧
    wallet98.Kp.SecretKey ≠ trivPrim.b58cdecode secret98 edsk := by
  have h := importWallet_stores_ascii_secret trivPrim addrHash pubEnc secret98 wallet98
    (by decide) (by decide) (by decide)
  exact ⟨h.1, h.2.1, h.2.2.1⟩

/-- Claim C9 (confirmed): `ImportWallet` evaluates `secret[:4]` and
`ImportEncryptedWallet` evaluates `encKey[:5]` before any length check, so
inputs shorter than 4 (respectively 5) characters panic, and the documented
format-error path is reached only for inputs at least that long. -/
theorem import_short_secret_panics (prim : Primitives) (a p secret pw encKey : String) :
    (secret.length < 4 →
      ImportWallet prim a p secret = .panicked "runtime error: slice bounds out of range") ∧
    (4 ≤ secret.length →
      (secret.take 4 ≠ "edsk" ∨ (secret.length ≠ 98 ∧ secret.length ≠ 54)) →
      ImportWallet prim a p secret =
        .err "import Wallet Error: The provided secret does not conform to known patterns") ∧
    (encKey.length < 5 →
      ImportEncryptedWallet prim pw encKey =
        .panicked "runtime error: slice bounds out of range") ∧
    (5 ≤ encKey.length → (encKey.take 5 ≠ "edesk" ∨ encKey.length ≠ 88) →
      ImportEncryptedWallet prim pw encKey =
        .err "importEncryptedWallet: Encrypted secret key does not conform to known patterns") := by
  refine ⟨?_, ?_, ?_, ?_⟩
  · intro h
    unfold ImportWallet
    rw [if_pos h]
  · intro h1 h2
    unfold ImportWallet
    rw [if_neg (by omega), if_pos h2]
  · intro h
    unfold ImportEncryptedWallet
    rw [if_pos h]
  · intro h1 h2
    unfold ImportEncryptedWallet
    rw [if_neg (by omega), if_pos h2]

/-- Witness for C9 at concrete short and malformed inputs. -/
theorem import_short_secret_panics_witness :
    ImportWallet trivPrim "a" "p" "ed" =
      .panicked "runtime error: slice bounds out of range" ∧
    ImportWallet trivPrim "a" "p" "edskX" =
      .err "import Wallet Error: The provided secret does not conform to known patterns" ∧
    ImportEncryptedWallet trivPrim "pw" "ede" =
      .panicked "runtime error: slice bounds out of range" ∧
    ImportEncryptedWallet trivPrim "pw" "edeskaaaa" =
      .err "importEncryptedWallet: Encrypted secret key does not conform to known patterns" :=
  ⟨(import_short_secret_panics trivPrim "a" "p" "ed" "pw" "ede").1 (by decide),
   (import_short_secret_panics trivPrim "a" "p" "edskX" "pw" "x").2.1 (by decide) (by decide),
   (import_short_secret_panics trivPrim "a" "p" "x" "pw" "ede").2.2.1 (by decide),
   (import_short_secret_panics trivPrim "a" "p" "x" "pw" "edeskaaaa").2.2.2
     (by decide) (by decide)⟩

/-- Claim C3 (code bug, evaluated at the failing input): when the initial
head query fails, `server.start` logs the error but still reads the cycle
from the zero-value block, so the recorded cycle is defaulted to 0; the next
successful tick (cycle 1) then enqueues a spurious payout for cycle 0.  The
second conjunct shows the in-loop part of the claim that does hold: a failed
tick is logged non-fatally, the recorded cycle stays unchanged and the loop
continues without enqueuing. -/
theorem scheduler_initial_head_failure_spurious_payout :
    servStart pnAll none [some 1] =
      ({ currentCycle := 1, enqueued := [⟨0⟩], constructed := [0], headErrors := 1 }, true) ∧
    servStart pnAll (some 100) [none, some 100] =
      ({ currentCycle := 100, enqueued := [], constructed := [], headErrors := 1 }, true) := by
  constructor <;> rfl

/-- Claim C5 (confirmed): when the observed head-cycle sequence is 100,
100, 101, the tick that re-observes 100 enqueues nothing, and the tick that
first observes 101 enqueues exactly one payout — the one `payout.New`
constructs for the previously recorded cycle 100 — before the recorded
cycle is updated to 101. -/
theorem scheduler_rollover_single_enqueue (pn : Nat → Option Payout)
    (hpn : ∀ c q, pn c = some q → q.cycle = c) (p : Payout) (hp : pn 100 = some p) :
    servStart pn (some 100) [some 100] =
      ({ currentCycle := 100, enqueued := [], constructed := [], headErrors := 0 }, true) ∧
    servStart pn (some 100) [some 100, some 101] =
      ({ currentCycle := 101, enqueued := [p], constructed := [100], headErrors := 0 }, true) ∧
    p.cycle = 100 := by
  refine ⟨?_, ?_, hpn _ _ hp⟩
  · simp [servStart, servRun, servTick]
  · simp [servStart, servRun, servTick, hp]

/-- Witness for C5 with the always-succeeding payout constructor. -/
theorem scheduler_rollover_single_enqueue_witness :
    servStart pnAll (some 100) [some 100] =
      ({ currentCycle := 100, enqueued := [], constructed := [], headErrors := 0 }, true) ∧
    servStart pnAll (some 100) [some 100, some 101] =
      ({ currentCycle := 101, enqueued := [⟨100⟩], constructed := [100], headErrors := 0 },
        true) ∧
    (⟨100⟩ : Payout).cycle = 100 :=
  scheduler_rollover_single_enqueue pnAll pnAll_spec ⟨100⟩ rfl

/-- Claim C10 (confirmed): with recorded cycle 100, a tick observing 102
enqueues exactly one payout — the one constructed for cycle 100 — and sets
the recorded cycle to 102; no later tick ever constructs or enqueues a
payout for the skipped cycle 101. -/
theorem scheduler_skips_intermediate_cycles (pn : Nat → Option Payout)
    (hpn : ∀ c q, pn c = some q → q.cycle = c) (p : Payout) (hp : pn 100 = some p) :
    servRun pn [some 102]
        { currentCycle := 100, enqueued := [], constructed := [], headErrors := 0 } =
      ({ currentCycle := 102, enqueued := [p], constructed := [100], headErrors := 0 },
        true) ∧
    p.cycle = 100 ∧
    (∀ ticks : List (Option Nat),
      (∀ q ∈ (servRun pn ticks
          { currentCycle := 102, enqueued := [p], constructed := [100],
            headErrors := 0 }).1.enqueued, q.cycle ≠ 101) ∧
      (∀ cc ∈ (servRun pn ticks
          { currentCycle := 102, enqueued := [p], constructed := [100],
            headErrors := 0 }).1.constructed, cc ≠ 101)) := by
  have hcyc := hpn _ _ hp
  refine ⟨?_, hcyc, ?_⟩
  · simp [servRun, servTick, hp]
  · intro ticks
    obtain ⟨r1, r2, r3⟩ := servRun_preserve pn hpn 102 ticks
      { currentCycle := 102, enqueued := [p], constructed := [100], headErrors := 0 }
      (by simp)
    constructor
    · intro q hq
      rcases r2 q hq with hq' | hq'
      · have : q = p := by simpa using hq'
        subst this
        omega
      · omega
    · intro cc hcc
      rcases r3 cc hcc with hcc' | hcc'
      · have : cc = 100 := by simpa using hcc'
        omega
      · omega

/-- Witness for C10 with the always-succeeding payout constructor. -/
theorem scheduler_skips_intermediate_cycles_witness :
    servRun pnAll [some 102]
        { currentCycle := 100, enqueued := [], constructed := [], headErrors := 0 } =
      ({ currentCycle := 102, enqueued := [⟨100⟩], constructed := [100], headErrors := 0 },
        true) ∧
    (⟨100⟩ : Payout).cycle = 100 ∧
    (∀ q ∈ (servRun pnAll [some 103, some 105]
        { currentCycle := 102, enqueued := [⟨100⟩], constructed := [100],
          headErrors := 0 }).1.enqueued, q.cycle ≠ 101) := by
  have h := scheduler_skips_intermediate_cycles pnAll pnAll_spec ⟨100⟩ rfl
  exact ⟨h.1, h.2.1, (h.2.2 [some 103, some 105]).1⟩

set_option maxRecDepth 1000000 in
/-- Claim C1, as stated, is false: on a pre-apply rejection the source does
not return "exactly the k signed operations" — it returns the pre-allocated
slice `make([]string, len(batches))`, whose slots for the rejected batch and
all later batches remain empty-string placeholders.  Concretely: 126
payments split into two batches, batch 1 is rejected, and the call returns a
2-element slice whose second entry is the empty string. -/
theorem createBatchPayment_placeholder_counterexample :
    BatchEv.preApplied 1 false ∈
      (CreateBatchPayment rejectEnv rejectPayments trivWallet 1 1).2.2 ∧
    (CreateBatchPayment rejectEnv rejectPayments trivWallet 1 1).2.1.isSome = true ∧
    (CreateBatchPayment rejectEnv rejectPayments trivWallet 1 1).1 = ["ab", ""] := by
  refine ⟨by decide, by decide, by decide⟩

/-- Claim C1 (corrected): if the node's pre-apply step rejects batch `kf`,
`CreateBatchPayment` returns an error together with a slice of one slot per
batch: slots `0..kf-1` hold the signed operations of the batches that
already passed pre-apply (each was signed and stored), slots `kf..n-1` are
empty-string placeholders, and no batch after `kf` is forged, signed or
pre-applied. -/
theorem createBatchPayment_preapply_failure (env : BatchEnv) (payments : List Payment)
    (w : Wallet) (fee gas : Int) (sigs : List String) (err : Option String)
    (tr : List BatchEv) (kf : Nat)
    (hrun : CreateBatchPayment env payments w fee gas = (sigs, err, tr))
    (hfail : BatchEv.preApplied kf false ∈ tr) :
    err.isSome = true ∧
    sigs.length = (splitPaymentIntoBatches payments).length ∧
    (∀ j, kf ≤ j → sigs.getD j "" = "") ∧
    (∀ j conts, BatchEv.forged j conts ∈ tr → j ≤ kf) ∧
    (∀ j, BatchEv.signed j ∈ tr → j ≤ kf) ∧
    (∀ j b, BatchEv.preApplied j b ∈ tr → j ≤ kf) ∧
    (∀ j op, BatchEv.stored j op ∈ tr → j < kf) ∧
    (∀ j, j < kf → BatchEv.preApplied j true ∈ tr ∧
      ∃ op, BatchEv.stored j op ∈ tr ∧ sigs.getD j "" = op) := by
  unfold CreateBatchPayment at hrun
  cases hH : env.getChainHead with
  | error e =>
    rw [hH] at hrun
    dsimp only at hrun
    have ht := congrArg (fun x => x.2.2) hrun
    dsimp only at ht
    rw [← ht] at hfail
    exact absurd hfail (by simp)
  | ok bh =>
    rw [hH] at hrun
    dsimp only at hrun
    cases hC : env.getAddressCounter w.Address with
    | error e =>
      rw [hC] at hrun
      dsimp only at hrun
      have ht := congrArg (fun x => x.2.2) hrun
      dsimp only at ht
      rw [← ht] at hfail
      exact absurd hfail (by simp)
    | ok c =>
      rw [hC] at hrun
      dsimp only at hrun
      have hs := congrArg (fun x => x.1) hrun
      have he := congrArg (fun x => x.2.1) hrun
      have ht := congrArg (fun x => x.2.2) hrun
      dsimp only at hs he ht
      have hlen0 : (List.replicate (splitPaymentIntoBatches payments).length "").length =
          0 + (splitPaymentIntoBatches payments).length := by
        simp
      obtain ⟨H1, H2, H3, H4, H5, H6, H7, H8, H9, H10⟩ :=
        cbLoop_fail_spec env w fee gas bh (splitPaymentIntoBatches payments) 0 (c + 1)
          (List.replicate (splitPaymentIntoBatches payments).length "") kf hlen0
          (by rw [ht]; exact hfail)
      refine ⟨?_, ?_, ?_, ?_, ?_, ?_, ?_, ?_⟩
      · rw [← he]
        exact H2
      · rw [← hs, H3]
        simp
      · intro j hj
        rw [← hs, H4 j hj]
        exact getD_replicate _ _ _
      · intro j conts hj
        exact H6 j conts (by rw [ht]; exact hj)
      · intro j hj
        exact H7 j (by rw [ht]; exact hj)
      · intro j b hj
        exact H8 j b (by rw [ht]; exact hj)
      · intro j op hj
        exact H9 j op (by rw [ht]; exact hj)
      · intro j hj
        obtain ⟨hm, op, hms, hval⟩ := H10 j (Nat.zero_le j) hj
        refine ⟨by rw [← ht]; exact hm, op, by rw [← ht]; exact hms, by rw [← hs]; exact hval⟩

set_option maxRecDepth 1000000 in
/-- Witness for the corrected C1 at the two-batch rejection scenario. -/
theorem createBatchPayment_preapply_failure_witness :
    (CreateBatchPayment rejectEnv rejectPayments trivWallet 1 1).2.1.isSome = true ∧
    (CreateBatchPayment rejectEnv rejectPayments trivWallet 1 1).1.length =
      (splitPaymentIntoBatches rejectPayments).length ∧
    (∀ j, 1 ≤ j →
      (CreateBatchPayment rejectEnv rejectPayments trivWallet 1 1).1.getD j "" = "") ∧
    (∀ j conts, BatchEv.forged j conts ∈
      (CreateBatchPayment rejectEnv rejectPayments trivWallet 1 1).2.2 → j ≤ 1) ∧
    (∀ j, BatchEv.signed j ∈
      (CreateBatchPayment rejectEnv rejectPayments trivWallet 1 1).2.2 → j ≤ 1) ∧
    (∀ j b, BatchEv.preApplied j b ∈
      (CreateBatchPayment rejectEnv rejectPayments trivWallet 1 1).2.2 → j ≤ 1) ∧
    (∀ j op, BatchEv.stored j op ∈
      (CreateBatchPayment rejectEnv rejectPayments trivWallet 1 1).2.2 → j < 1) ∧
    (∀ j, j < 1 → BatchEv.preApplied j true ∈
        (CreateBatchPayment rejectEnv rejectPayments trivWallet 1 1).2.2 ∧
      ∃ op, BatchEv.stored j op ∈
          (CreateBatchPayment rejectEnv rejectPayments trivWallet 1 1).2.2 ∧
        (CreateBatchPayment rejectEnv rejectPayments trivWallet 1 1).1.getD j "" = op) :=
  createBatchPayment_preapply_failure rejectEnv rejectPayments trivWallet 1 1
    (CreateBatchPayment rejectEnv rejectPayments trivWallet 1 1).1
    (CreateBatchPayment rejectEnv rejectPayments trivWallet 1 1).2.1
    (CreateBatchPayment rejectEnv rejectPayments trivWallet 1 1).2.2 1 rfl (by decide)

/-- Claim C2 (confirmed): in a fully successful call with on-chain counter
`c`, the transaction operations sent to the forge endpoint across all
batches, in order, contain one entry per payment with amount strictly
greater than 0 (payments with amount ≤ 0 are skipped, input order
preserved), and their counters are exactly `c+1, c+2, ...` consecutively
with no reset at batch boundaries. -/
theorem createBatchPayment_counters (env : BatchEnv) (payments : List Payment) (w : Wallet)
    (fee gas : Int) (bh : Block) (c : Nat) (sigs : List String) (tr : List BatchEv)
    (hH : env.getChainHead = .ok bh)
    (hC : env.getAddressCounter w.Address = .ok c)
    (hrun : CreateBatchPayment env payments w fee gas = (sigs, none, tr)) :
    (forgedOps tr).map TransOp.Counter =
      (List.range' (c + 1) (payments.filter fun p => 0 < p.Amount).length).map toString ∧
    (forgedOps tr).map (fun o => (o.Kind, o.Source, o.Fee, o.GasLimit, o.StorageLimit,
        o.Amount, o.Destination)) =
      (payments.filter fun p => 0 < p.Amount).map
        (fun p => ("transaction", w.Address, toString fee, toString gas, "0",
          toString (round p.Amount), p.Address)) ∧
    (forgedOps tr).length = (payments.filter fun p => 0 < p.Amount).length := by
  unfold CreateBatchPayment at hrun
  rw [hH] at hrun
  dsimp only at hrun
  rw [hC] at hrun
  dsimp only at hrun
  have he := congrArg (fun x => x.2.1) hrun
  have ht := congrArg (fun x => x.2.2) hrun
  dsimp only at he ht
  have hforged := cbLoop_ok_forged env w fee gas bh (splitPaymentIntoBatches payments) 0
    (c + 1) (List.replicate (splitPaymentIntoBatches payments).length "") he
  rw [← ht, hforged, batchChainOps_eq, splitPaymentIntoBatches_flatten]
  obtain ⟨g1, g2, g3⟩ := buildOps_spec w.Address fee gas payments (c + 1)
  refine ⟨g2, g3, ?_⟩
  have hl := congrArg List.length g3
  simpa using hl

set_option maxRecDepth 100000 in
/-- Witness for C2 at a three-payment batch (middle amount 0) with on-chain
counter 5. -/
theorem createBatchPayment_counters_witness :
    (forgedOps (CreateBatchPayment allOkEnv samplePayments trivWallet 1 1).2.2).map
        TransOp.Counter =
      (List.range' (5 + 1) (samplePayments.filter fun p => 0 < p.Amount).length).map
        toString ∧
    (forgedOps (CreateBatchPayment allOkEnv samplePayments trivWallet 1 1).2.2).map
        (fun o => (o.Kind, o.Source, o.Fee, o.GasLimit, o.StorageLimit, o.Amount,
          o.Destination)) =
      (samplePayments.filter fun p => 0 < p.Amount).map
        (fun p => ("transaction", trivWallet.Address, toString (1 : Int), toString (1 : Int),
          "0", toString (round p.Amount), p.Address)) ∧
    (forgedOps (CreateBatchPayment allOkEnv samplePayments trivWallet 1 1).2.2).length =
      (samplePayments.filter fun p => 0 < p.Amount).length :=
  createBatchPayment_counters allOkEnv samplePayments trivWallet 1 1 ⟨"BH"⟩ 5
    (CreateBatchPayment allOkEnv samplePayments trivWallet 1 1).1
    (CreateBatchPayment allOkEnv samplePayments trivWallet 1 1).2.2 rfl rfl rfl

end Payman
